import Mathlib

/-! Overview.
Verification development for the indexer-seo URL-indexing pipeline.

The definitions below are shallow embeddings of the Python source under
src/backend: the scheduler eligibility predicate (scheduler.py), the L3
result-reconciliation updates (layer_result_saving.py), the L1 limit
computation (layer_data_preparation.py), the L2 credential gating
(layer_indexing_worker.py), the Bing batch submission retry loop and site
URL normalization (indexing_bing.py), and the credential encryption
framing (auth/_auth.py).  Machine integers are modelled as Nat/Int,
timestamps as integer seconds, byte strings as List Nat with entries
below 256, and Python sets as Finset String.
-/

namespace IndexerSeo

/-! Section: Scheduler (scheduler.py) -/

/-- Minimum hours between two runs for the same shop (scheduler.py line 41). -/
def MIN_HOURS_BETWEEN_RUNS : Int := 12

/-- Maximum runs per shop per UTC day (scheduler.py line 42). -/
def MAX_RUNS_PER_DAY : Nat := 2

/-- Embedding of scheduler.is_shop_eligible (scheduler.py lines 237-263).
Timestamps are integer UTC seconds; the recorded last-run timestamp is
an Option (absence = no state recorded), and dailyCount is the recorded
run count for the shop on the current UTC day (0 when absent).  The
Python code compares (now - last_run).total_seconds() / 3600 with
MIN_HOURS_BETWEEN_RUNS, which at whole-second granularity is the
comparison of now - t with 12 * 3600 seconds. -/
def is_shop_eligible (lastRun : Option Int) (dailyCount : Nat) (now : Int) : Bool :=
  match lastRun with
  | some t =>
    if now - t < MIN_HOURS_BETWEEN_RUNS * 3600 then false
    else if MAX_RUNS_PER_DAY ≤ dailyCount then false
    else true
  | none =>
    if MAX_RUNS_PER_DAY ≤ dailyCount then false
    else true

/-! Section: Relational data model (db_model.py) -/

/-- Embedding of db_model.UrlStatus. -/
inductive UrlStatus where
  | PENDING
  | PROCESSING
  | COMPLETED
  | FAILED
deriving DecidableEq, Repr

/-- Embedding of db_model.IndexAction. -/
inductive IndexAction where
  | INDEX
  | DELETE
  | IGNORE
deriving DecidableEq, Repr

/-- Embedding of db_model.UrlEntry restricted to the fields the pipeline
core reads and writes.  lastIndexedAt is an optional integer timestamp. -/
structure UrlEntry where
  shop : String
  webUrl : String
  indexAction : IndexAction
  status : UrlStatus
  attempts : Nat
  isGoogleIndexed : Bool
  isBingIndexed : Bool
  lastIndexedAt : Option Int
deriving DecidableEq, Repr

/-! Section: L3 result reconciliation (layer_result_saving.py) -/

/-- Embedding of layer_result_saving.split_google_bing_urls (lines
171-179).  The Python function builds set(google_urls) and
set(bing_urls) and returns the intersection and the two differences as
lists; Python sets of strings are modelled as Finset String, which
captures exactly the deduplication and membership semantics the three
bulk updates consume. -/
def split_google_bing_urls (google_urls bing_urls : List String) :
    Finset String × Finset String × Finset String :=
  let google_set := google_urls.toFinset
  let bing_set := bing_urls.toFinset
  (google_set ∩ bing_set, google_set \ bing_set, bing_set \ google_set)

/-- Row-level effect of the bulk UPDATE in update_google_and_bing
(lines 187-205): rows of the shop whose webUrl is in the url set get
both flags set, status COMPLETED and lastIndexedAt refreshed. -/
def applyBoth (shop : String) (urls : Finset String) (now : Int) (row : UrlEntry) : UrlEntry :=
  if row.shop = shop ∧ row.webUrl ∈ urls then
    { row with
      isGoogleIndexed := true
      isBingIndexed := true
      status := UrlStatus.COMPLETED
      lastIndexedAt := some now }
  else row

/-- Row-level effect of the bulk UPDATE in update_google_only (lines
213-233): restricted to rows with isGoogleIndexed = false. -/
def applyGoogleOnly (shop : String) (urls : Finset String) (now : Int) (row : UrlEntry) : UrlEntry :=
  if row.shop = shop ∧ row.isGoogleIndexed = false ∧ row.webUrl ∈ urls then
    { row with isGoogleIndexed := true, lastIndexedAt := some now }
  else row

/-- Row-level effect of the bulk UPDATE in update_bing_only (lines
241-260): restricted to rows with isBingIndexed = false; only the Bing
flag is written. -/
def applyBingOnly (shop : String) (urls : Finset String) (row : UrlEntry) : UrlEntry :=
  if row.shop = shop ∧ row.isBingIndexed = false ∧ row.webUrl ∈ urls then
    { row with isBingIndexed := true }
  else row

/-- Table-level update_google_and_bing: the UrlEntry table is a list of
rows and the bulk UPDATE acts row-wise. -/
def update_google_and_bing (shop : String) (urls : Finset String) (now : Int)
    (db : List UrlEntry) : List UrlEntry :=
  db.map (applyBoth shop urls now)

/-- Table-level update_google_only. -/
def update_google_only (shop : String) (urls : Finset String) (now : Int)
    (db : List UrlEntry) : List UrlEntry :=
  db.map (applyGoogleOnly shop urls now)

/-- Table-level update_bing_only. -/
def update_bing_only (shop : String) (urls : Finset String)
    (db : List UrlEntry) : List UrlEntry :=
  db.map (applyBingOnly shop urls)

/-- Embedding of layer_result_saving.update_indexing_results (lines
263-268): split the two provider url lists and run the three bulk
updates in source order.  now is the UTC timestamp the Python code
reads from datetime.now at update time. -/
def update_indexing_results (shop : String) (google_urls bing_urls : List String)
    (now : Int) (db : List UrlEntry) : List UrlEntry :=
  let s := split_google_bing_urls google_urls bing_urls
  update_bing_only shop s.2.2
    (update_google_only shop s.2.1 now
      (update_google_and_bing shop s.1 now db))

/-- The composite row-level effect of one update_indexing_results call. -/
def applyL3 (shop : String) (google_urls bing_urls : List String) (now : Int)
    (row : UrlEntry) : UrlEntry :=
  let s := split_google_bing_urls google_urls bing_urls
  applyBingOnly shop s.2.2
    (applyGoogleOnly shop s.2.1 now
      (applyBoth shop s.1 now row))

/-- One L3 reconciliation operation: the inputs of a single
update_indexing_results call. -/
structure L3Op where
  shop : String
  google_urls : List String
  bing_urls : List String
  now : Int

/-- Row-level effect of a sequence of L3 reconciliation operations. -/
def applyOps (ops : List L3Op) (row : UrlEntry) : UrlEntry :=
  ops.foldl (fun r op => applyL3 op.shop op.google_urls op.bing_urls op.now r) row

/-- A row with its timestamp field erased, for comparing states up to
lastIndexedAt. -/
def eraseTimestamp (row : UrlEntry) : UrlEntry :=
  { row with lastIndexedAt := none }

theorem update_indexing_results_eq_map (shop : String) (g b : List String) (now : Int)
    (db : List UrlEntry) :
    update_indexing_results shop g b now db = db.map (applyL3 shop g b now) := by
  simp [update_indexing_results, update_google_and_bing, update_google_only,
    update_bing_only, applyL3, List.map_map]

theorem applyL3_google_mono (shop : String) (g b : List String) (now : Int)
    (row : UrlEntry) (h : row.isGoogleIndexed = true) :
    (applyL3 shop g b now row).isGoogleIndexed = true := by
  simp only [applyL3, applyBoth, applyGoogleOnly, applyBingOnly]
  split_ifs <;> simp_all

theorem applyL3_bing_mono (shop : String) (g b : List String) (now : Int)
    (row : UrlEntry) (h : row.isBingIndexed = true) :
    (applyL3 shop g b now row).isBingIndexed = true := by
  simp only [applyL3, applyBoth, applyGoogleOnly, applyBingOnly]
  split_ifs <;> simp_all

theorem applyL3_same_now_idem (shop : String) (g b : List String) (now : Int)
    (row : UrlEntry) :
    applyL3 shop g b now (applyL3 shop g b now row) = applyL3 shop g b now row := by
  by_cases hs : row.shop = shop <;>
    by_cases hg : row.webUrl ∈ g.toFinset <;>
    by_cases hb : row.webUrl ∈ b.toFinset <;>
    by_cases hfg : row.isGoogleIndexed = true <;>
    by_cases hfb : row.isBingIndexed = true <;>
    simp_all [applyL3, split_google_bing_urls, applyBoth, applyGoogleOnly, applyBingOnly]

theorem applyL3_twice_eraseTimestamp (shop : String) (g b : List String)
    (now now2 : Int) (row : UrlEntry) :
    eraseTimestamp (applyL3 shop g b now2 (applyL3 shop g b now row)) =
      eraseTimestamp (applyL3 shop g b now row) := by
  by_cases hs : row.shop = shop <;>
    by_cases hg : row.webUrl ∈ g.toFinset <;>
    by_cases hb : row.webUrl ∈ b.toFinset <;>
    by_cases hfg : row.isGoogleIndexed = true <;>
    by_cases hfb : row.isBingIndexed = true <;>
    simp_all [applyL3, split_google_bing_urls, applyBoth, applyGoogleOnly, applyBingOnly,
      eraseTimestamp]

/-- Claim C2: applying an L3 result envelope sets a row status to
COMPLETED only when its webUrl is in both the successful Google url set
and the successful Bing url set; a url confirmed by exactly one
provider changes only that provider flag (plus, for Google,
lastIndexedAt) and leaves status unchanged. -/
theorem l3_completed_requires_both_providers (shop : String) (g b : List String)
    (now : Int) (row : UrlEntry) :
    ((applyL3 shop g b now row).status ≠ row.status →
      ((applyL3 shop g b now row).status = UrlStatus.COMPLETED ∧
        row.webUrl ∈ g ∧ row.webUrl ∈ b ∧ row.shop = shop)) ∧
    (row.webUrl ∈ g ∧ row.webUrl ∉ b →
      ((applyL3 shop g b now row).status = row.status ∧
        (applyL3 shop g b now row).isBingIndexed = row.isBingIndexed ∧
        (applyL3 shop g b now row).shop = row.shop ∧
        (applyL3 shop g b now row).webUrl = row.webUrl ∧
        (applyL3 shop g b now row).indexAction = row.indexAction ∧
        (applyL3 shop g b now row).attempts = row.attempts)) ∧
    (row.webUrl ∈ b ∧ row.webUrl ∉ g →
      ((applyL3 shop g b now row).status = row.status ∧
        (applyL3 shop g b now row).isGoogleIndexed = row.isGoogleIndexed ∧
        (applyL3 shop g b now row).lastIndexedAt = row.lastIndexedAt ∧
        (applyL3 shop g b now row).shop = row.shop ∧
        (applyL3 shop g b now row).webUrl = row.webUrl ∧
        (applyL3 shop g b now row).indexAction = row.indexAction ∧
        (applyL3 shop g b now row).attempts = row.attempts)) ∧
    (row.shop = shop ∧ row.webUrl ∈ g ∧ row.webUrl ∈ b →
      ((applyL3 shop g b now row).status = UrlStatus.COMPLETED ∧
        (applyL3 shop g b now row).isGoogleIndexed = true ∧
        (applyL3 shop g b now row).isBingIndexed = true)) := by
  by_cases hs : row.shop = shop <;>
    by_cases hg : row.webUrl ∈ g.toFinset <;>
    by_cases hb : row.webUrl ∈ b.toFinset <;>
    by_cases hfg : row.isGoogleIndexed = true <;>
    by_cases hfb : row.isBingIndexed = true <;>
    simp_all [applyL3, split_google_bing_urls, applyBoth, applyGoogleOnly, applyBingOnly]

/-- Claim C3: over any sequence of L3 reconciliation operations, the
per-row flags isGoogleIndexed and isBingIndexed are monotonically
non-decreasing; no operation turns either flag from true to false. -/
theorem l3_flags_monotone (ops : List L3Op) (row : UrlEntry) :
    (row.isGoogleIndexed = true → (applyOps ops row).isGoogleIndexed = true) ∧
    (row.isBingIndexed = true → (applyOps ops row).isBingIndexed = true) := by
  induction ops generalizing row with
  | nil => simp [applyOps]
  | cons op rest ih =>
    simp only [applyOps, List.foldl_cons] at *
    constructor
    · intro h
      exact (ih (applyL3 op.shop op.google_urls op.bing_urls op.now row)).1
        (applyL3_google_mono _ _ _ _ _ h)
    · intro h
      exact (ih (applyL3 op.shop op.google_urls op.bing_urls op.now row)).2
        (applyL3_bing_mono _ _ _ _ _ h)

/-- A concrete PENDING row used for concrete evaluations. -/
def sampleRow : UrlEntry :=
  ⟨"s", "u", IndexAction.INDEX, UrlStatus.PENDING, 0, false, false, none⟩

/-- Claim C9, counterexample: replaying the same L3 result (same shop
and url lists) at a later wall-clock instant does not leave the store
identical: the row confirmed by both providers gets its lastIndexedAt
refreshed to the later timestamp. -/
theorem update_indexing_results_replay_differs :
    update_indexing_results "s" ["u"] ["u"] 1
        (update_indexing_results "s" ["u"] ["u"] 0 [sampleRow]) ≠
      update_indexing_results "s" ["u"] ["u"] 0 [sampleRow] := by
  decide

/-- Claim C9 (amended): update_indexing_results is idempotent up to the
refresh of lastIndexedAt: replaying the same inputs with the same
timestamp leaves the store identical, and replaying them with any
other timestamp leaves every field except lastIndexedAt identical. -/
theorem update_indexing_results_idempotent (shop : String) (g b : List String)
    (now now2 : Int) (db : List UrlEntry) :
    update_indexing_results shop g b now (update_indexing_results shop g b now db) =
      update_indexing_results shop g b now db ∧
    (update_indexing_results shop g b now2
        (update_indexing_results shop g b now db)).map eraseTimestamp =
      (update_indexing_results shop g b now db).map eraseTimestamp := by
  constructor
  · simp only [update_indexing_results_eq_map, List.map_map]
    refine List.map_congr_left (fun row _ => ?_)
    simp only [Function.comp_apply]
    exact applyL3_same_now_idem shop g b now row
  · simp only [update_indexing_results_eq_map, List.map_map]
    refine List.map_congr_left (fun row _ => ?_)
    simp only [Function.comp_apply]
    exact applyL3_twice_eraseTimestamp shop g b now now2 row

/-! Section: L1 limit computation (layer_data_preparation.py) -/

/-- Embedding of the limit computation in fetch_auth_and_urls
(layer_data_preparation.py lines 176-192).  Python evaluates
int(max(bingLimit, googleLimit) * 1.05); int() truncates toward zero,
and since the IEEE double nearest to 1.05 exceeds 21/20 by only about
4.4e-17, for every realistic limit the truncated double product equals
the floor of the exact product, 21 * max / 20 in Nat division. -/
def final_limit (bingLimit googleLimit : Nat) : Nat :=
  max bingLimit googleLimit * 21 / 20

/-- The limit as the spec words it (for comparison with final_limit):
the least integer greater than or equal to 1.05 times the larger
limit, that is the ceiling of 21 * max / 20. -/
def final_limit_ceiling_spec (bingLimit googleLimit : Nat) : Nat :=
  (max bingLimit googleLimit * 21 + 19) / 20

/-! Section: L2 credential gating (layer_indexing_worker.py) -/

/-- Embedding of the credential sanity check in
layer_indexing_worker.process_job (lines 186-206).  Python computes
cred and len(str(cred)) > 10, where a missing field is None (falsy)
and an empty string is falsy; credentials are stored as strings, so
the check holds exactly when the field is present, nonempty and longer
than 10 characters. -/
def credQualifies (cred : Option String) : Bool :=
  match cred with
  | none => false
  | some s => !(s == "") && decide (10 < s.length)

/-- The externally visible effects of one L2 process_job call: which
providers were dispatched, the terminal status and message written to
the L2 envelope, whether the stream message was acknowledged, and
whether an L3 envelope and stream entry were produced. -/
structure L2Outcome where
  googleDispatched : Bool
  bingDispatched : Bool
  status : Option String
  message : Option String
  acked : Bool
  l3Emitted : Bool
deriving DecidableEq, Repr

/-- Embedding of the control flow of layer_indexing_worker.process_job
(lines 169-314) at the level of its externally visible effects.  A job
with a falsy shop is acknowledged and dropped; with no qualifying
credential the envelope is completed with message No valid credentials
and no L3 job is emitted; otherwise each qualifying provider is
dispatched and an L3 envelope plus stream entry are produced. -/
def process_job_l2 (shop : Option String) (googleCred bingCred : Option String) :
    L2Outcome :=
  if shop = none ∨ shop = some "" then
    { googleDispatched := false, bingDispatched := false, status := none,
      message := none, acked := true, l3Emitted := false }
  else if credQualifies googleCred = false ∧ credQualifies bingCred = false then
    { googleDispatched := false, bingDispatched := false,
      status := some "completed", message := some "No valid credentials",
      acked := true, l3Emitted := false }
  else
    { googleDispatched := credQualifies googleCred,
      bingDispatched := credQualifies bingCred,
      status := some "completed", message := none,
      acked := true, l3Emitted := true }

/-- Claim C6, counterexample: for the limits 210/210 (210 is not
divisible by 20) the code computes 220, the floor of 1.05 times 210,
which is strictly below 21 * 210 / 20 = 220.5 and therefore not the
least integer greater than or equal to it (that would be 221). -/
theorem final_limit_not_ceiling_at_210 :
    final_limit 210 210 = 220 ∧ final_limit_ceiling_spec 210 210 = 221 ∧
      210 % 20 ≠ 0 ∧ 20 * final_limit 210 210 < 21 * 210 := by
  decide

/-- Claim C6 (amended): the L1 worker computes
final_limit = ⌊1.05 × max(bingLimit, googleLimit)⌋, the floor (not the
ceiling) of the exact product: 20 * final_limit ≤ 21 * max < 20 *
(final_limit + 1). -/
theorem final_limit_is_floor (bingLimit googleLimit : Nat) :
    20 * final_limit bingLimit googleLimit ≤ 21 * max bingLimit googleLimit ∧
      21 * max bingLimit googleLimit < 20 * (final_limit bingLimit googleLimit + 1) := by
  unfold final_limit
  generalize max bingLimit googleLimit = m
  omega

/-- Claim C8: a provider is dispatched iff its credential is present
and its string form is longer than 10 characters; when neither
qualifies, the L2 envelope is completed with message No valid
credentials, the stream message is acknowledged, and no L3 envelope or
stream entry is produced. -/
theorem l2_credential_gating (shop : String) (googleCred bingCred : Option String)
    (hshop : shop ≠ "") :
    ((process_job_l2 (some shop) googleCred bingCred).googleDispatched = true ↔
      ∃ c, googleCred = some c ∧ 10 < c.length) ∧
    ((process_job_l2 (some shop) googleCred bingCred).bingDispatched = true ↔
      ∃ c, bingCred = some c ∧ 10 < c.length) ∧
    (credQualifies googleCred = false → credQualifies bingCred = false →
      process_job_l2 (some shop) googleCred bingCred =
        { googleDispatched := false, bingDispatched := false,
          status := some "completed", message := some "No valid credentials",
          acked := true, l3Emitted := false }) := by
  have hq : ∀ cred : Option String,
      (credQualifies cred = true ↔ ∃ c, cred = some c ∧ 10 < c.length) := by
    intro cred
    cases cred with
    | none => simp [credQualifies]
    | some s =>
      simp only [credQualifies, Bool.and_eq_true, Bool.not_eq_true',
        beq_eq_false_iff_ne, ne_eq, decide_eq_true_eq]
      constructor
      · rintro ⟨-, hl⟩
        exact ⟨s, rfl, hl⟩
      · rintro ⟨c, hc, hl⟩
        cases hc
        refine ⟨fun he => ?_, hl⟩
        subst he
        exact absurd hl (by decide)
  have hnone : ¬(some shop = none ∨ some shop = some "") := by simp [hshop]
  have hgd : (process_job_l2 (some shop) googleCred bingCred).googleDispatched =
      credQualifies googleCred := by
    simp only [process_job_l2, if_neg hnone]
    split_ifs with h
    · exact h.1.symm
    · rfl
  have hbd : (process_job_l2 (some shop) googleCred bingCred).bingDispatched =
      credQualifies bingCred := by
    simp only [process_job_l2, if_neg hnone]
    split_ifs with h
    · exact h.2.symm
    · rfl
  refine ⟨?_, ?_, ?_⟩
  · rw [hgd]
    exact hq googleCred
  · rw [hbd]
    exact hq bingCred
  · intro hg hb
    simp only [process_job_l2, if_neg hnone]
    rw [if_pos ⟨hg, hb⟩]

/-- Claim C8, witness: with no credentials at all, the L2 job for shop
shop1 dispatches nothing, completes with No valid credentials, acks,
and emits no L3 job. -/
theorem l2_credential_gating_witness :
    process_job_l2 (some "shop1") none none =
      { googleDispatched := false, bingDispatched := false,
        status := some "completed", message := some "No valid credentials",
        acked := true, l3Emitted := false } :=
  (l2_credential_gating "shop1" none none (by decide)).2.2 rfl rfl

/-! Section: Bing batch submission retries (indexing_bing.py) -/

/-- RETRY_DELAYS of BingIndexingProcessor (indexing_bing.py line 136). -/
def RETRY_DELAYS : List Nat := [1, 12, 24]

/-- The backoff delay slept before moving from attempt to attempt + 1:
the retry paths read RETRY_DELAYS[min(attempt, len(RETRY_DELAYS) - 1)]
(indexing_bing.py lines 303-305, 346-348, 371, 392); attempt counts
from 1, so index 0 and its 1-second delay are never used. -/
def retryDelay (attempt : Nat) : Nat :=
  RETRY_DELAYS.getD (min attempt (RETRY_DELAYS.length - 1)) 0

/-- Result statuses of indexing_bing.ResultStatus. -/
inductive ResultStatus where
  | success
  | failed
  | quota_exceeded
  | rate_limited
  | skipped
deriving DecidableEq, Repr

/-- Embedding of the HTTP outcome logic of
BingIndexingProcessor._submit_batch (indexing_bing.py lines 235-419).
statusOf gives the HTTP status code the chunk submission receives on
each attempt (attempts count from 1, as in the source).  The value is
the list of backoff delays slept, the final ResultStatus recorded for
the chunk, and the attempts field of that result: 200 → SUCCESS;
429 → retry while attempt < retry_limit, else RATE_LIMITED;
403 → QUOTA_EXCEEDED, terminal; ≥ 500 → retry while attempt <
retry_limit, else FAILED; any other code → FAILED. -/
def submitBatch (statusOf : Nat → Nat) (retryLimit attempt : Nat) :
    List Nat × ResultStatus × Nat :=
  if statusOf attempt = 200 then ([], ResultStatus.success, attempt)
  else if statusOf attempt = 429 then
    if h : attempt < retryLimit then
      let res := submitBatch statusOf retryLimit (attempt + 1)
      (retryDelay attempt :: res.1, res.2)
    else ([], ResultStatus.rate_limited, attempt)
  else if statusOf attempt = 403 then ([], ResultStatus.quota_exceeded, attempt)
  else if 500 ≤ statusOf attempt then
    if h : attempt < retryLimit then
      let res := submitBatch statusOf retryLimit (attempt + 1)
      (retryDelay attempt :: res.1, res.2)
    else ([], ResultStatus.failed, attempt)
  else ([], ResultStatus.failed, attempt)
termination_by retryLimit - attempt
decreasing_by all_goals omega

theorem submitBatch_always429 (statusOf : Nat → Nat) (retryLimit : Nat)
    (h429 : ∀ a, statusOf a = 429) :
    ∀ attempt, attempt ≤ retryLimit →
      submitBatch statusOf retryLimit attempt =
        ((List.range' attempt (retryLimit - attempt)).map retryDelay,
          ResultStatus.rate_limited, retryLimit) := by
  suffices h : ∀ n attempt, attempt ≤ retryLimit → retryLimit - attempt = n →
      submitBatch statusOf retryLimit attempt =
        ((List.range' attempt (retryLimit - attempt)).map retryDelay,
          ResultStatus.rate_limited, retryLimit) by
    intro attempt hle
    exact h (retryLimit - attempt) attempt hle rfl
  intro n
  induction n with
  | zero =>
    intro attempt hle h0
    have ha : attempt = retryLimit := by omega
    rw [submitBatch]
    simp [h429, ha]
  | succ n ih =>
    intro attempt hle hn
    have hlt : attempt < retryLimit := by omega
    rw [submitBatch]
    simp only [h429, hlt, dif_pos, if_neg (by decide : ¬(429 = 200)), if_pos rfl,
      reduceCtorEq]
    rw [ih (attempt + 1) (by omega) (by omega)]
    have hr : List.range' attempt (retryLimit - attempt) =
        attempt :: List.range' (attempt + 1) (retryLimit - (attempt + 1)) := by
      have h1 : retryLimit - attempt = (retryLimit - (attempt + 1)) + 1 := by omega
      rw [h1]
      simp [List.range']
    rw [hr]
    simp

/-- Claim C7, counterexample: a chunk that receives HTTP 429 on every
attempt with the default retry_limit of 3 sleeps 12 s before the first
retry and 24 s before the second, not 1 s / 12 s / 24 s: the index
into RETRY_DELAYS is min(attempt, 2) with attempt starting at 1, so
the 1-second entry is never used and only two retries happen. -/
theorem submitBatch_429_delays_concrete :
    (submitBatch (fun _ => 429) 3 1).1 = [12, 24] ∧
      (submitBatch (fun _ => 429) 3 1).1 ≠ [1, 12, 24] := by
  have h := submitBatch_always429 (fun _ => 429) 3 (fun _ => rfl) 1 (by omega)
  rw [h]
  constructor
  · rfl
  · decide

/-- Claim C7 (amended): on persistent HTTP 429 the chunk is retried
with backoff delays of 12 s before the first retry and 24 s before
each later retry (the 1 s entry of RETRY_DELAYS is unreachable since
attempts count from 1), up to retry_limit total attempts, and once
retry_limit is exhausted the chunk result is recorded with status
rate_limited. -/
theorem submitBatch_429_schedule (statusOf : Nat → Nat) (retryLimit : Nat)
    (h429 : ∀ a, statusOf a = 429) (hpos : 1 ≤ retryLimit) :
    submitBatch statusOf retryLimit 1 =
      ((List.range' 1 (retryLimit - 1)).map retryDelay,
        ResultStatus.rate_limited, retryLimit) ∧
    retryDelay 1 = 12 ∧ (∀ k, 2 ≤ k → retryDelay k = 24) ∧
    (∀ a, 1 ≤ a → retryDelay a ≠ 1) := by
  have hd24 : ∀ k, 2 ≤ k → retryDelay k = 24 := by
    intro k hk
    have h2 : min k (RETRY_DELAYS.length - 1) = 2 := by
      rw [min_eq_right]
      · rfl
      · show RETRY_DELAYS.length - 1 ≤ k
        simpa [RETRY_DELAYS] using hk
    rw [retryDelay, h2]
    rfl
  refine ⟨submitBatch_always429 statusOf retryLimit h429 1 hpos, rfl, hd24, ?_⟩
  intro a ha
  match a, ha with
  | 1, _ => decide
  | (n + 2), _ =>
    rw [hd24 (n + 2) (by omega)]
    decide

/-- Claim C7, witness: with persistent 429 and retry_limit 3 starting
at attempt 1, the recorded delays are 12 s then 24 s, the final status
is rate_limited and three attempts were made. -/
theorem submitBatch_429_schedule_witness :
    submitBatch (fun _ => 429) 3 1 = ([12, 24], ResultStatus.rate_limited, 3) := by
  have h := (submitBatch_429_schedule (fun _ => 429) 3 (fun _ => rfl) (by omega)).1
  rw [h]
  rfl

/-! Section: Bing site URL normalization (indexing_bing.py lines 163-191) -/

/-- The scheme pattern https:// as a character list. -/
def httpsPat : List Char := ['h', 't', 't', 'p', 's', ':', '/', '/']

/-- The scheme pattern http:// as a character list. -/
def httpPat : List Char := ['h', 't', 't', 'p', ':', '/', '/']

/-- The leading pattern www. as a character list. -/
def wwwPat : List Char := ['w', 'w', 'w', '.']

/-- Worker for stripAll: scan left to right; the counter holds the
number of already-matched pattern characters still to drop. -/
def stripAllAux (pat : List Char) : List Char → Nat → List Char
  | [], _ => []
  | _ :: rest, Nat.succ k => stripAllAux pat rest k
  | c :: rest, 0 =>
    if !pat.isEmpty && pat.isPrefixOf (c :: rest) then
      stripAllAux pat rest (pat.length - 1)
    else c :: stripAllAux pat rest 0

/-- Python str.replace(pat, "") on character lists: remove every
non-overlapping occurrence of pat, scanning left to right. -/
def stripAll (pat l : List Char) : List Char := stripAllAux pat l 0

/-- Whether pat occurs as a contiguous substring of the list. -/
def hasSub (pat : List Char) : List Char → Bool
  | [] => pat.isEmpty
  | c :: rest => pat.isPrefixOf (c :: rest) || hasSub pat rest

/-- Python url.rstrip("/") on character lists, written exactly as the
source operates: drop the trailing run of slashes. -/
def rstripSlash (l : List Char) : List Char :=
  (l.reverse.dropWhile (fun c => c == '/')).reverse

/-- Embedding of BingIndexingProcessor._normalize_site_url
(indexing_bing.py lines 163-191): remove every occurrence of https://
then every occurrence of http:// (Python str.replace removes all
occurrences, not only a leading scheme), strip trailing slashes,
prepend www. when absent, and prepend http://.  The .myshopify.com
branch of the source is a pass and is omitted. -/
def normalize_site_url (url : List Char) : List Char :=
  let u1 := stripAll httpsPat url
  let u2 := stripAll httpPat u1
  let u3 := rstripSlash u2
  let u4 := if wwwPat.isPrefixOf u3 then u3 else wwwPat ++ u3
  httpPat ++ u4

theorem rstripSlash_eq_rdropWhile (l : List Char) :
    rstripSlash l = List.rdropWhile (fun c => c == '/') l := rfl

theorem isPrefixOf_iff_pre (l₁ l₂ : List Char) : l₁.isPrefixOf l₂ = true ↔ l₁ <+: l₂ :=
  List.isPrefixOf_iff_prefix

theorem rdropWhile_pre (p : Char → Bool) (l : List Char) : List.rdropWhile p l <+: l :=
  List.rdropWhile_prefix p l

theorem pre_append (l t : List Char) : l <+: l ++ t :=
  List.prefix_append l t

theorem stripAllAux_skip (pat xs w : List Char) :
    stripAllAux pat (xs ++ w) xs.length = stripAllAux pat w 0 := by
  induction xs with
  | nil => rfl
  | cons x xs ih =>
    simpa only [List.cons_append, List.length_cons, stripAllAux] using ih

theorem stripAll_of_not_hasSub (pat l : List Char) (h : hasSub pat l = false) :
    stripAll pat l = l := by
  induction l with
  | nil => rfl
  | cons c rest ih =>
    simp only [hasSub, Bool.or_eq_false_iff] at h
    simp only [stripAll, stripAllAux, h.1, Bool.and_false, if_false]
    exact congrArg (c :: ·) (ih h.2)

theorem hasSub_extend (pat xs t : List Char) (h : hasSub pat xs = true) :
    hasSub pat (xs ++ t) = true := by
  induction xs with
  | nil =>
    simp only [hasSub] at h
    have hp : pat = [] := by simpa using h
    subst hp
    cases t with
    | nil => rfl
    | cons c rest => simp [hasSub, List.isPrefixOf]
  | cons c rest ih =>
    simp only [hasSub, Bool.or_eq_true] at h
    rcases h with h | h
    · have hpre : pat <+: c :: rest := (isPrefixOf_iff_pre _ _).mp h
      have h2 : pat <+: c :: (rest ++ t) := by
        simpa using hpre.trans (pre_append _ _)
      simp [hasSub, isPrefixOf_iff_pre, h2]
    · simp [hasSub, ih h]

theorem hasSub_of_part (pat l l' : List Char) (hpre : l' <+: l)
    (h : hasSub pat l = false) : hasSub pat l' = false := by
  obtain ⟨t, rfl⟩ := hpre
  cases hl : hasSub pat l' with
  | false => rfl
  | true => rw [hasSub_extend pat l' t hl] at h; cases h

theorem hasSub_rstripSlash (pat l : List Char) (h : hasSub pat l = false) :
    hasSub pat (rstripSlash l) = false := by
  rw [rstripSlash_eq_rdropWhile]
  exact hasSub_of_part pat l _ (rdropWhile_pre _ _) h

theorem hasSub_cons_of_head_ne (p c : Char) (ps rest : List Char) (hne : (p == c) = false) :
    hasSub (p :: ps) (c :: rest) = hasSub (p :: ps) rest := by
  simp [hasSub, List.isPrefixOf, hne]

theorem stripAll_cons_self (p : Char) (ps w : List Char)
    (h : hasSub (p :: ps) w = false) :
    stripAll (p :: ps) ((p :: ps) ++ w) = w := by
  have hpre : (p :: ps).isPrefixOf (p :: (ps ++ w)) = true := by
    rw [← List.cons_append]
    exact (isPrefixOf_iff_pre _ _).mpr (pre_append _ _)
  simp only [stripAll, List.cons_append, stripAllAux, List.append_eq, List.isEmpty_cons,
    Bool.not_false, Bool.true_and, hpre, if_true]
  have hlen : (p :: ps).length - 1 = ps.length := by simp
  rw [hlen, stripAllAux_skip]
  exact stripAll_of_not_hasSub _ _ h

/-- The normalized output http:// ++ w with w starting in www. has no
https:// occurrence when w has none: a candidate occurrence would have
to start at an h, and the only h characters are the leading one (where
the fifth characters s and : differ) and those inside w. -/
theorem hasSub_https_out (w : List Char) (h : hasSub httpsPat w = false)
    (hw : wwwPat.isPrefixOf w = true) :
    hasSub httpsPat (httpPat ++ w) = false := by
  obtain ⟨w4, rfl⟩ : ∃ w', w = 'w' :: 'w' :: 'w' :: '.' :: w' := by
    cases w with
    | nil => simp [wwwPat, List.isPrefixOf] at hw
    | cons a w1 =>
      cases w1 with
      | nil => simp [wwwPat, List.isPrefixOf] at hw
      | cons b w2 =>
        cases w2 with
        | nil => simp [wwwPat, List.isPrefixOf] at hw
        | cons c w3 =>
          cases w3 with
          | nil => simp [wwwPat, List.isPrefixOf] at hw
          | cons d w4 =>
            simp only [wwwPat, List.isPrefixOf, Bool.and_eq_true, beq_iff_eq] at hw
            obtain ⟨ha, hb, hc, hd, -⟩ := hw
            subst ha
            subst hb
            subst hc
            subst hd
            exact ⟨w4, rfl⟩
  simp only [hasSub, httpsPat, httpPat, List.cons_append, List.nil_append,
    List.isPrefixOf, Bool.and_eq_false_iff] at h ⊢
  simp_all

theorem hasSub_http_www (w : List Char) (h : hasSub httpPat w = false) :
    hasSub httpPat (wwwPat ++ w) = false := by
  simp only [wwwPat, httpPat, List.cons_append, List.nil_append] at h ⊢
  rw [hasSub_cons_of_head_ne _ _ _ _ (by decide),
    hasSub_cons_of_head_ne _ _ _ _ (by decide),
    hasSub_cons_of_head_ne _ _ _ _ (by decide),
    hasSub_cons_of_head_ne _ _ _ _ (by decide)]
  exact h

theorem hasSub_https_www (w : List Char) (h : hasSub httpsPat w = false) :
    hasSub httpsPat (wwwPat ++ w) = false := by
  simp only [wwwPat, httpsPat, List.cons_append, List.nil_append] at h ⊢
  rw [hasSub_cons_of_head_ne _ _ _ _ (by decide),
    hasSub_cons_of_head_ne _ _ _ _ (by decide),
    hasSub_cons_of_head_ne _ _ _ _ (by decide),
    hasSub_cons_of_head_ne _ _ _ _ (by decide)]
  exact h

theorem rstripSlash_www_fix (t : List Char) (ht : rstripSlash t = t) :
    rstripSlash (wwwPat ++ t) = wwwPat ++ t := by
  rw [rstripSlash_eq_rdropWhile] at *
  cases t with
  | nil =>
    show List.rdropWhile (fun c => c == '/') (['w', 'w', 'w'] ++ ['.']) = _
    rw [List.rdropWhile_concat_neg _ _ '.' (by decide)]
    rfl
  | cons a t' =>
    rw [List.rdropWhile_eq_self_iff] at ht ⊢
    intro hl
    have hne : a :: t' ≠ [] := by simp
    rw [List.getLast_append_of_ne_nil hne]
    exact ht hne

/-- Claim C10, counterexample: _normalize_site_url is not idempotent.
Python str.replace removes all occurrences, and removing http:// from
htthttp://ps://x splices the remaining characters into https://x, so
the first pass yields http://www.https://x while the second pass
strips the inner scheme and yields http://www.x. -/
theorem normalize_site_url_not_idempotent :
    normalize_site_url (normalize_site_url
        ['h', 't', 't', 'h', 't', 't', 'p', ':', '/', '/', 'p', 's', ':', '/', '/', 'x']) ≠
      normalize_site_url
        ['h', 't', 't', 'h', 't', 't', 'p', ':', '/', '/', 'p', 's', ':', '/', '/', 'x'] := by
  decide

/-- Claim C10 (amended): _normalize_site_url is idempotent on every
input whose scheme-stripped form contains no residual https:// or
http:// substring (str.replace can splice such a substring together,
which is the only source of non-idempotence), and every output starts
with http://www. whenever the scheme- and slash-stripped input does
not already start with www. (indeed the output then starts with
http://www. ++ that input). -/
theorem normalize_site_url_idem (url : List Char)
    (h1 : hasSub httpsPat (stripAll httpPat (stripAll httpsPat url)) = false)
    (h2 : hasSub httpPat (stripAll httpPat (stripAll httpsPat url)) = false) :
    normalize_site_url (normalize_site_url url) = normalize_site_url url ∧
    (wwwPat.isPrefixOf (rstripSlash (stripAll httpPat (stripAll httpsPat url))) = false →
      normalize_site_url url =
        httpPat ++ wwwPat ++ rstripSlash (stripAll httpPat (stripAll httpsPat url))) := by
  set s := stripAll httpPat (stripAll httpsPat url) with hs
  set t := rstripSlash s with hts
  have ht1 : hasSub httpsPat t = false := hasSub_rstripSlash _ _ h1
  have ht2 : hasSub httpPat t = false := hasSub_rstripSlash _ _ h2
  set w := if wwwPat.isPrefixOf t then t else wwwPat ++ t with hw
  have hwww : wwwPat.isPrefixOf w = true := by
    rw [hw]
    split
    · assumption
    · exact (isPrefixOf_iff_pre _ _).mpr (pre_append _ _)
  have hw1 : hasSub httpsPat w = false := by
    rw [hw]
    split
    · exact ht1
    · exact hasSub_https_www _ ht1
  have hw2 : hasSub httpPat w = false := by
    rw [hw]
    split
    · exact ht2
    · exact hasSub_http_www _ ht2
  have hout : normalize_site_url url = httpPat ++ w := by
    rw [normalize_site_url]
  have hfix : rstripSlash w = w := by
    rw [hw]
    have htfix : rstripSlash t = t := by
      rw [hts, rstripSlash_eq_rdropWhile, rstripSlash_eq_rdropWhile]
      exact List.rdropWhile_idempotent _ _
    split
    · exact htfix
    · exact rstripSlash_www_fix t htfix
  constructor
  · rw [hout, normalize_site_url]
    have e1 : stripAll httpsPat (httpPat ++ w) = httpPat ++ w :=
      stripAll_of_not_hasSub _ _ (hasSub_https_out w hw1 hwww)
    rw [e1]
    have e2 : stripAll httpPat (httpPat ++ w) = w := stripAll_cons_self _ _ _ hw2
    rw [e2]
    simp [hfix, hwww]
  · intro hnw
    rw [hout, hw, if_neg (by simp [hnw])]
    rw [List.append_assoc]

/-- Claim C10, witness: the normalization of example.com/ is
http://www.example.com, a fixed point of a second application, and it
carries the http://www. prefix. -/
theorem normalize_site_url_idem_witness :
    normalize_site_url (normalize_site_url
        ['e', 'x', 'a', 'm', 'p', 'l', 'e', '.', 'c', 'o', 'm', '/']) =
      normalize_site_url ['e', 'x', 'a', 'm', 'p', 'l', 'e', '.', 'c', 'o', 'm', '/'] ∧
    normalize_site_url ['e', 'x', 'a', 'm', 'p', 'l', 'e', '.', 'c', 'o', 'm', '/'] =
      httpPat ++ wwwPat ++
        rstripSlash (stripAll httpPat (stripAll httpsPat
          ['e', 'x', 'a', 'm', 'p', 'l', 'e', '.', 'c', 'o', 'm', '/'])) := by
  have h := normalize_site_url_idem
    ['e', 'x', 'a', 'm', 'p', 'l', 'e', '.', 'c', 'o', 'm', '/'] (by decide) (by decide)
  exact ⟨h.1, h.2 (by decide)⟩

/-! Section: Credential encryption framing (auth/_auth.py)

The source encrypts with AES-256-GCM from the cryptography library (a
12-byte random IV and a 16-byte tag appended to the ciphertext) and
frames the result as base64(iv).base64(tag).base64(ciphertext); decrypt
splits on the dot, rejects a malformed or empty component, and inverts.
Byte strings are List Nat with entries below 256; 46 is the code of the
dot and 61 the code of the base64 padding character. -/

/-- The standard base64 alphabet as ASCII codes. -/
def b64alphabet : List Nat :=
  (List.range 26).map (· + 65) ++ (List.range 26).map (· + 97) ++
    (List.range 10).map (· + 48) ++ [43, 47]

/-- The base64 character (ASCII code) of a 6-bit value. -/
def b64char (v : Nat) : Nat := b64alphabet.getD v 0

/-- The 6-bit value of a base64 character. -/
def b64value (c : Nat) : Nat := b64alphabet.indexOf c

/-- Python base64.b64encode on byte lists. -/
def b64encode : List Nat → List Nat
  | [] => []
  | [a] => [b64char (a / 4), b64char (a % 4 * 16), 61, 61]
  | [a, b] => [b64char (a / 4), b64char (a % 4 * 16 + b / 16), b64char (b % 16 * 4), 61]
  | a :: b :: c :: rest =>
    b64char (a / 4) :: b64char (a % 4 * 16 + b / 16) ::
      b64char (b % 16 * 4 + c / 64) :: b64char (c % 64) :: b64encode rest

/-- Python base64.b64decode on the images of b64encode. -/
def b64decode : List Nat → List Nat
  | w :: x :: y :: z :: rest =>
    if y = 61 then [b64value w * 4 + b64value x / 16]
    else if z = 61 then
      [b64value w * 4 + b64value x / 16, b64value x % 16 * 16 + b64value y / 4]
    else
      (b64value w * 4 + b64value x / 16) ::
        (b64value x % 16 * 16 + b64value y / 4) ::
        (b64value y % 4 * 64 + b64value z) :: b64decode rest
  | _ => []

/-- Helper for splitSep: prepend a character to the first part. -/
def splitSepConsHead (c : Nat) : List (List Nat) → List (List Nat)
  | [] => [[c]]
  | h :: t => (c :: h) :: t

/-- Python str.split(sep) on byte lists. -/
def splitSep (sep : Nat) : List Nat → List (List Nat)
  | [] => [[]]
  | c :: rest =>
    if c = sep then [] :: splitSep sep rest
    else splitSepConsHead c (splitSep sep rest)

theorem b64value_b64char : ∀ v, v < 64 → b64value (b64char v) = v := by decide

theorem b64char_ne_61 : ∀ v, v < 64 → b64char v ≠ 61 := by decide

theorem b64char_ne_46 : ∀ v, v < 64 → b64char v ≠ 46 := by decide

theorem b64decode_pad2 (w x : Nat) (rest : List Nat) :
    b64decode (w :: x :: 61 :: 61 :: rest) = [b64value w * 4 + b64value x / 16] := rfl

theorem b64decode_pad1 (w x y : Nat) (rest : List Nat) (hy : y ≠ 61) :
    b64decode (w :: x :: y :: 61 :: rest) =
      [b64value w * 4 + b64value x / 16, b64value x % 16 * 16 + b64value y / 4] := by
  unfold b64decode
  rw [if_neg hy]
  simp

theorem b64decode_cons4 (w x y z : Nat) (rest : List Nat) (hy : y ≠ 61) (hz : z ≠ 61) :
    b64decode (w :: x :: y :: z :: rest) =
      (b64value w * 4 + b64value x / 16) ::
        (b64value x % 16 * 16 + b64value y / 4) ::
        (b64value y % 4 * 64 + b64value z) :: b64decode rest := by
  unfold b64decode
  rw [if_neg hy, if_neg hz]
  rw [b64decode.eq_def]

theorem b64decode_b64encode (l : List Nat) (h : ∀ x ∈ l, x < 256) :
    b64decode (b64encode l) = l := by
  induction l using b64encode.induct with
  | case1 => rfl
  | case2 a =>
    have ha : a < 256 := h a (by simp)
    have h1 : a / 4 < 64 := by omega
    have h2 : a % 4 * 16 < 64 := by omega
    have e1 : b64encode [a] = [b64char (a / 4), b64char (a % 4 * 16), 61, 61] := rfl
    rw [e1, b64decode_pad2, b64value_b64char _ h1, b64value_b64char _ h2]
    simp only [List.cons.injEq, and_true]
    omega
  | case3 a b =>
    have ha : a < 256 := h a (by simp)
    have hb : b < 256 := h b (by simp)
    have h1 : a / 4 < 64 := by omega
    have h2 : a % 4 * 16 + b / 16 < 64 := by omega
    have h3 : b % 16 * 4 < 64 := by omega
    have e1 : b64encode [a, b] =
        [b64char (a / 4), b64char (a % 4 * 16 + b / 16), b64char (b % 16 * 4), 61] := rfl
    rw [e1, b64decode_pad1 _ _ _ _ (b64char_ne_61 _ h3)]
    rw [b64value_b64char _ h1, b64value_b64char _ h2, b64value_b64char _ h3]
    simp only [List.cons.injEq, and_true]
    omega
  | case4 a b c rest ih =>
    have ha : a < 256 := h a (by simp)
    have hb : b < 256 := h b (by simp)
    have hc : c < 256 := h c (by simp)
    have h1 : a / 4 < 64 := by omega
    have h2 : a % 4 * 16 + b / 16 < 64 := by omega
    have h3 : b % 16 * 4 + c / 64 < 64 := by omega
    have h4 : c % 64 < 64 := by omega
    have e1 : b64encode (a :: b :: c :: rest) =
        b64char (a / 4) :: b64char (a % 4 * 16 + b / 16) ::
          b64char (b % 16 * 4 + c / 64) :: b64char (c % 64) :: b64encode rest := rfl
    rw [e1, b64decode_cons4 _ _ _ _ _ (b64char_ne_61 _ h3) (b64char_ne_61 _ h4)]
    rw [b64value_b64char _ h1, b64value_b64char _ h2, b64value_b64char _ h3,
      b64value_b64char _ h4]
    rw [ih (fun x hx => h x (by simp [hx]))]
    simp only [List.cons.injEq, and_true]
    refine ⟨by omega, by omega, by omega⟩

theorem b64encode_ne_nil (l : List Nat) (h : l ≠ []) : b64encode l ≠ [] := by
  match l with
  | [] => exact absurd rfl h
  | [a] => simp [b64encode]
  | [a, b] => simp [b64encode]
  | a :: b :: c :: rest => simp [b64encode]

theorem not_mem_46_b64encode (l : List Nat) (h : ∀ x ∈ l, x < 256) :
    (46 : Nat) ∉ b64encode l := by
  induction l using b64encode.induct with
  | case1 => simp [b64encode]
  | case2 a =>
    have ha : a < 256 := h a (by simp)
    simp only [b64encode, List.mem_cons, List.not_mem_nil, or_false]
    push_neg
    refine ⟨?_, ?_, by omega, by omega⟩
    · exact fun he => b64char_ne_46 _ (by omega) he.symm
    · exact fun he => b64char_ne_46 _ (by omega) he.symm
  | case3 a b =>
    have ha : a < 256 := h a (by simp)
    have hb : b < 256 := h b (by simp)
    simp only [b64encode, List.mem_cons, List.not_mem_nil, or_false]
    push_neg
    refine ⟨?_, ?_, ?_, by omega⟩
    · exact fun he => b64char_ne_46 _ (by omega) he.symm
    · exact fun he => b64char_ne_46 _ (by omega) he.symm
    · exact fun he => b64char_ne_46 _ (by omega) he.symm
  | case4 a b c rest ih =>
    have ha : a < 256 := h a (by simp)
    have hb : b < 256 := h b (by simp)
    have hc : c < 256 := h c (by simp)
    have hrest := ih (fun x hx => h x (by simp [hx]))
    simp only [b64encode, List.mem_cons]
    push_neg
    refine ⟨?_, ?_, ?_, ?_, hrest⟩
    · exact fun he => b64char_ne_46 _ (by omega) he.symm
    · exact fun he => b64char_ne_46 _ (by omega) he.symm
    · exact fun he => b64char_ne_46 _ (by omega) he.symm
    · exact fun he => b64char_ne_46 _ (by omega) he.symm

theorem splitSep_no_sep (sep : Nat) (x : List Nat) (h : sep ∉ x) :
    splitSep sep x = [x] := by
  induction x with
  | nil => rfl
  | cons c rest ih =>
    simp only [List.mem_cons, not_or] at h
    have hcs : ¬(c = sep) := fun he => h.1 he.symm
    simp only [splitSep, if_neg hcs]
    rw [ih h.2]
    rfl

theorem splitSep_append (sep : Nat) (x r : List Nat) (h : sep ∉ x) :
    splitSep sep (x ++ sep :: r) = x :: splitSep sep r := by
  induction x with
  | nil => simp [splitSep]
  | cons c rest ih =>
    simp only [List.mem_cons, not_or] at h
    have hcs : ¬(c = sep) := fun he => h.1 he.symm
    simp only [List.cons_append, splitSep, if_neg hcs, List.append_eq]
    rw [ih h.2]
    rfl

/-- Modelled from the spec: the AES-256-GCM primitive itself lives in
the external cryptography library, outside this repository; the spec
treats it as a black box whose encryption returns ciphertext plus a
16-byte tag and whose decryption inverts it.  enc maps (iv, plaintext)
to ciphertext ++ tag; dec maps (iv, ciphertext ++ tag) back. -/
structure GCMCipher where
  enc : List Nat → List Nat → List Nat
  dec : List Nat → List Nat → Option (List Nat)

/-- Embedding of auth._auth.encrypt (lines 18-48) over an abstract GCM
primitive: split ciphertext_and_tag into ciphertext ([:-16]) and tag
([-16:]) and join base64(iv).base64(tag).base64(ciphertext). -/
def encrypt (A : GCMCipher) (iv pt : List Nat) : List Nat :=
  let ctAndTag := A.enc iv pt
  let ct := ctAndTag.take (ctAndTag.length - 16)
  let tag := ctAndTag.drop (ctAndTag.length - 16)
  b64encode iv ++ 46 :: (b64encode tag ++ 46 :: b64encode ct)

/-- Embedding of auth._auth.decrypt (lines 51-89): split on the dot,
require exactly three parts, reject any empty part, base64-decode, and
run GCM decryption on ciphertext ++ tag. -/
def decrypt (A : GCMCipher) (payload : List Nat) : Except String (List Nat) :=
  match splitSep 46 payload with
  | [iv_b64, tag_b64, ct_b64] =>
    if iv_b64.isEmpty || tag_b64.isEmpty || ct_b64.isEmpty then
      Except.error "Invalid encrypted payload format"
    else
      match A.dec (b64decode iv_b64) (b64decode ct_b64 ++ b64decode tag_b64) with
      | some pt => Except.ok pt
      | none => Except.error "Decryption failed"
  | _ => Except.error "Invalid encrypted payload format (expected: iv.tag.ciphertext)"

/-- A concrete GCM instance with zero keystream and zero tag, used for
concrete evaluations: enc appends sixteen zero bytes, dec checks and
removes them. -/
def gcmZero : GCMCipher where
  enc := fun _ pt => pt ++ List.replicate 16 0
  dec := fun _ x =>
    if x.length ≥ 16 ∧ x.drop (x.length - 16) = List.replicate 16 0 then
      some (x.take (x.length - 16))
    else none

theorem gcmZero_enc_length : ∀ iv pt : List Nat,
    (gcmZero.enc iv pt).length = pt.length + 16 := by
  intro iv pt
  simp [gcmZero]

theorem gcmZero_enc_bytes : ∀ iv pt : List Nat, (∀ x ∈ pt, x < 256) →
    ∀ b ∈ gcmZero.enc iv pt, b < 256 := by
  intro iv pt h b hb
  simp only [gcmZero, List.mem_append, List.mem_replicate] at hb
  rcases hb with hb | hb
  · exact h b hb
  · omega

theorem gcmZero_roundtrip : ∀ iv pt : List Nat,
    gcmZero.dec iv (gcmZero.enc iv pt) = some pt := by
  intro iv pt
  simp only [gcmZero]
  have hlen : (pt ++ List.replicate 16 0).length - 16 = pt.length := by simp
  rw [if_pos]
  · rw [hlen, List.take_left]
  · refine ⟨by simp, ?_⟩
    rw [hlen, List.drop_left]

/-- Claim C5, counterexample: for the empty string the GCM ciphertext
is empty (the ciphertext has the plaintext length), so encrypt("")
produces base64(iv).base64(tag). with an empty third component, which
decrypt rejects as Invalid encrypted payload format instead of
returning "". -/
theorem decrypt_encrypt_empty_fails :
    decrypt gcmZero (encrypt gcmZero (List.replicate 12 0) []) =
      Except.error "Invalid encrypted payload format" := by
  rfl

/-- Claim C5 (amended): for every nonempty plaintext (in particular
every nonempty UTF-8 string of length at most 10000, hence at most
40000 bytes), decrypting the encryption under the same GCM cipher
returns the plaintext; the 12-byte IV and the 16-byte appended tag are
carried through the base64(iv).base64(tag).base64(ciphertext) framing
intact.  The empty plaintext is excluded: its empty ciphertext
component is rejected by decrypt (see the counterexample). -/
theorem decrypt_encrypt_roundtrip (A : GCMCipher) (iv pt : List Nat)
    (hlen : ∀ iv' pt', (A.enc iv' pt').length = pt'.length + 16)
    (hbytes : ∀ iv' pt', (∀ x ∈ pt', x < 256) → ∀ b ∈ A.enc iv' pt', b < 256)
    (hrt : ∀ iv' pt', A.dec iv' (A.enc iv' pt') = some pt')
    (hiv12 : iv.length = 12) (hivb : ∀ x ∈ iv, x < 256)
    (hptne : pt ≠ []) (hptb : ∀ x ∈ pt, x < 256)
    (hpt40k : pt.length ≤ 40000) :
    decrypt A (encrypt A iv pt) = Except.ok pt := by
  have hcttlen : (A.enc iv pt).length = pt.length + 16 := hlen iv pt
  have hcttb : ∀ b ∈ A.enc iv pt, b < 256 := hbytes iv pt hptb
  set ctt := A.enc iv pt with hctt
  set ct := ctt.take (ctt.length - 16) with hct
  set tag := ctt.drop (ctt.length - 16) with htag
  have hctlen : ct.length = pt.length := by
    rw [hct, List.length_take, hcttlen]
    omega
  have htaglen : tag.length = 16 := by
    rw [htag, List.length_drop, hcttlen]
    omega
  have hctb : ∀ x ∈ ct, x < 256 := fun x hx => hcttb x (List.take_subset _ _ hx)
  have htagb : ∀ x ∈ tag, x < 256 := fun x hx => hcttb x (List.drop_subset _ _ hx)
  have hivne : iv ≠ [] := by
    intro he
    rw [he] at hiv12
    simp at hiv12
  have hctne : ct ≠ [] := by
    intro he
    have := congrArg List.length he
    rw [hctlen] at this
    exact hptne (List.length_eq_zero.mp this)
  have htagne : tag ≠ [] := by
    intro he
    have := congrArg List.length he
    rw [htaglen] at this
    simp at this
  have hsplit : splitSep 46 (encrypt A iv pt) =
      [b64encode iv, b64encode tag, b64encode ct] := by
    show splitSep 46 (b64encode iv ++ 46 :: (b64encode tag ++ 46 :: b64encode ct)) = _
    rw [splitSep_append _ _ _ (not_mem_46_b64encode iv hivb),
      splitSep_append _ _ _ (not_mem_46_b64encode tag htagb),
      splitSep_no_sep _ _ (not_mem_46_b64encode ct hctb)]
  rw [decrypt, hsplit]
  have hem : ∀ m : List Nat, m ≠ [] → m.isEmpty = false := by
    intro m hm
    cases m with
    | nil => exact absurd rfl hm
    | cons a t => rfl
  simp only [hem _ (b64encode_ne_nil iv hivne), hem _ (b64encode_ne_nil tag htagne),
    hem _ (b64encode_ne_nil ct hctne), Bool.or_self, Bool.or_false, Bool.false_or,
    if_false, Bool.false_eq_true]
  rw [b64decode_b64encode iv hivb, b64decode_b64encode tag htagb,
    b64decode_b64encode ct hctb]
  have hjoin : ct ++ tag = ctt := by
    rw [hct, htag]
    exact List.take_append_drop _ _
  rw [hjoin, hctt, hrt iv pt]

/-- Claim C5, witness: under the zero-keystream GCM instance, the
two-byte plaintext hi survives the encrypt-then-decrypt round trip
with a twelve-byte IV. -/
theorem decrypt_encrypt_roundtrip_witness :
    decrypt gcmZero (encrypt gcmZero (List.replicate 12 0) [104, 105]) =
      Except.ok [104, 105] :=
  decrypt_encrypt_roundtrip gcmZero (List.replicate 12 0) [104, 105]
    gcmZero_enc_length gcmZero_enc_bytes gcmZero_roundtrip (by rfl)
    (by decide) (by decide) (by decide) (by decide)

/-- Claim C1: the scheduler eligibility check returns true if and only
if (a) no last-run timestamp is recorded or at least 12 hours
(MIN_HOURS_BETWEEN_RUNS) have elapsed since the recorded last run, and
(b) the recorded run count for the current UTC day is strictly below 2
(MAX_RUNS_PER_DAY); a shop with no recorded state is eligible. -/
theorem is_shop_eligible_iff (lastRun : Option Int) (dailyCount : Nat) (now : Int) :
    (is_shop_eligible lastRun dailyCount now = true ↔
      ((∀ t, lastRun = some t → MIN_HOURS_BETWEEN_RUNS * 3600 ≤ now - t) ∧
        dailyCount < MAX_RUNS_PER_DAY)) ∧
    is_shop_eligible none 0 now = true := by
  constructor
  · cases lastRun with
    | none =>
      simp only [is_shop_eligible]
      constructor
      · intro h
        constructor
        · intro t ht
          exact absurd ht (by simp)
        · by_contra hc
          simp only [not_lt] at hc
          simp [hc] at h
      · rintro ⟨-, hc⟩
        simp [Nat.not_le.mpr hc]
    | some t =>
      simp only [is_shop_eligible]
      constructor
      · intro h
        by_cases h1 : now - t < MIN_HOURS_BETWEEN_RUNS * 3600
        · simp [h1] at h
        · refine ⟨fun t' ht' => ?_, ?_⟩
          · cases ht'
            omega
          · by_contra hc
            simp only [not_lt] at hc
            simp [h1, hc] at h
      · rintro ⟨h1, h2⟩
        have := h1 t rfl
        have hlt : ¬ now - t < MIN_HOURS_BETWEEN_RUNS * 3600 := by omega
        simp [hlt, Nat.not_le.mpr h2]
  · simp [is_shop_eligible, MAX_RUNS_PER_DAY]

/-- Claim C4: split_google_bing_urls partitions the two url lists into
three pairwise-disjoint sets whose union is the set-union of the two
lists, so every url occurring in either list lies in at most one of
the three parts. -/
theorem split_google_bing_urls_partition (google_urls bing_urls : List String) :
    Disjoint (split_google_bing_urls google_urls bing_urls).1
      (split_google_bing_urls google_urls bing_urls).2.1 ∧
    Disjoint (split_google_bing_urls google_urls bing_urls).1
      (split_google_bing_urls google_urls bing_urls).2.2 ∧
    Disjoint (split_google_bing_urls google_urls bing_urls).2.1
      (split_google_bing_urls google_urls bing_urls).2.2 ∧
    (split_google_bing_urls google_urls bing_urls).1 ∪
      (split_google_bing_urls google_urls bing_urls).2.1 ∪
      (split_google_bing_urls google_urls bing_urls).2.2 =
      google_urls.toFinset ∪ bing_urls.toFinset := by
  refine ⟨?_, ?_, ?_, ?_⟩
  · rw [Finset.disjoint_left]
    intro u hu hu'
    simp only [split_google_bing_urls, Finset.mem_inter, Finset.mem_sdiff] at hu hu'
    tauto
  · rw [Finset.disjoint_left]
    intro u hu hu'
    simp only [split_google_bing_urls, Finset.mem_inter, Finset.mem_sdiff] at hu hu'
    tauto
  · rw [Finset.disjoint_left]
    intro u hu hu'
    simp only [split_google_bing_urls, Finset.mem_sdiff] at hu hu'
    tauto
  · ext u
    simp only [split_google_bing_urls, Finset.mem_union, Finset.mem_inter,
      Finset.mem_sdiff]
    tauto

end IndexerSeo
